import Mathlib

/-!
Shallow embedding of the ascii-art diagram toolkit: the grid builder
(scripts/grid.py) and the diagram verifier (scripts/verify.py).
Python strings are modelled as lists of characters, a diagram as a list of
rows, and the mutable line buffer of the grid builder as a `List Char`
threaded through the placement operations.  Fallible paths (the markdown
extractor's out-of-range block error) are modelled by an explicit error
flag in the result.
-/

/-- One cell write shared by `Grid.put` and `Grid.fill`: write `ch` at
0-based index `idx` when `0 <= idx < width`, otherwise drop it silently
(the guard `0 <= idx < self.width` in grid.py). -/
def Grid.putChar (width : Nat) (buf : List Char) (idx : Int) (ch : Char) : List Char :=
  if 0 ≤ idx ∧ idx < (width : Int) then buf.set idx.toNat ch else buf

/-- `Grid.line`: a fresh buffer of `width` space characters. -/
def Grid.line (width : Nat) : List Char := List.replicate width ' '

/-- `Grid.put`: place `text` left to right starting at 1-based column `col`;
the i-th character targets 0-based index `col - 1 + i`; characters falling
outside the grid width are silently dropped. -/
def Grid.put (width : Nat) (buf : List Char) (col : Int) : List Char → List Char
  | [] => buf
  | ch :: rest => Grid.put width (Grid.putChar width buf (col - 1) ch) (col + 1) rest

/-- Loop of `Grid.fill`: `n` columns remain, the next one is `c`. -/
def Grid.fillAux (width : Nat) (ch : Char) : Nat → List Char → Int → List Char
  | 0, buf, _ => buf
  | n + 1, buf, c => Grid.fillAux width ch n (Grid.putChar width buf (c - 1) ch) (c + 1)

/-- `Grid.fill`: write `ch` into every 1-based column of `col1..col2`
inclusive (Python `range(col1, col2 + 1)`), clipped to the grid. -/
def Grid.fill (width : Nat) (buf : List Char) (col1 col2 : Int) (ch : Char) : List Char :=
  Grid.fillAux width ch (col2 + 1 - col1).toNat buf col1

/-- `Grid.hline`: `+` at `col1`, `-` over `col1+1..col2-1`, `+` at `col2`. -/
def Grid.hline (width : Nat) (buf : List Char) (col1 col2 : Int) : List Char :=
  Grid.put width
    (Grid.fill width (Grid.put width buf col1 ['+']) (col1 + 1) (col2 - 1) '-')
    col2 ['+']

/-- Python `str.ljust`: pad `s` on the right with spaces to length `n`
(no-op when `n` does not exceed the current length, negative included). -/
def ljustI (s : List Char) (n : Int) : List Char :=
  s ++ List.replicate (n - (s.length : Int)).toNat ' '

/-- `Grid.box_label_str`: the label row of a box of total width `width`:
a bar, then `(' ' + label).ljust(width - 2)`, then a bar. -/
def Grid.box_label_str (label : List Char) (width : Int) : List Char :=
  '|' :: ljustI (' ' :: label) (width - 2) ++ ['|']

theorem Grid.putChar_length (width : Nat) (buf : List Char) (idx : Int) (ch : Char) :
    (Grid.putChar width buf idx ch).length = buf.length := by
  unfold Grid.putChar
  split <;> simp

theorem Grid.put_length (text : List Char) :
    ∀ (width : Nat) (buf : List Char) (col : Int),
      (Grid.put width buf col text).length = buf.length := by
  induction text with
  | nil => intro w buf col; rfl
  | cons ch rest ih =>
    intro w buf col
    rw [Grid.put, ih, Grid.putChar_length]

theorem Grid.fillAux_length (n : Nat) :
    ∀ (width : Nat) (ch : Char) (buf : List Char) (c : Int),
      (Grid.fillAux width ch n buf c).length = buf.length := by
  induction n with
  | zero => intro w ch buf c; rfl
  | succ n ih =>
    intro w ch buf c
    rw [Grid.fillAux, ih, Grid.putChar_length]

theorem Grid.fill_length (width : Nat) (buf : List Char) (col1 col2 : Int) (ch : Char) :
    (Grid.fill width buf col1 col2 ch).length = buf.length := by
  unfold Grid.fill
  rw [Grid.fillAux_length]

theorem Grid.hline_length (width : Nat) (buf : List Char) (col1 col2 : Int) :
    (Grid.hline width buf col1 col2).length = buf.length := by
  unfold Grid.hline
  rw [Grid.put_length, Grid.fill_length, Grid.put_length]

/-- A character whose target index is out of range is dropped: the whole
`put` does not depend on its value. -/
theorem Grid.put_drop (text : List Char) :
    ∀ (width : Nat) (buf : List Char) (col : Int) (i : Nat),
      i < text.length →
      (col - 1 + (i : Int) < 0 ∨ (width : Int) ≤ col - 1 + (i : Int)) →
      ∀ c2 : Char, Grid.put width buf col text = Grid.put width buf col (text.set i c2) := by
  induction text with
  | nil => intro w buf col i hi _ c2; simp at hi
  | cons ch rest ih =>
    intro w buf col i hi hout c2
    cases i with
    | zero =>
      simp only [List.set]
      rw [Grid.put, Grid.put]
      have hguard : ¬(0 ≤ col - 1 ∧ col - 1 < (w : Int)) := by
        push_cast at hout
        omega
      unfold Grid.putChar
      rw [if_neg hguard, if_neg hguard]
    | succ i =>
      simp only [List.set]
      rw [Grid.put, Grid.put]
      apply ih w _ (col + 1) i
      · simpa using Nat.lt_of_succ_lt_succ hi
      · push_cast at hout ⊢
        omega

theorem Grid.putChar_get?_ne (width : Nat) (buf : List Char) (idx : Int) (ch : Char)
    (j : Nat) (h : (j : Int) ≠ idx) :
    (Grid.putChar width buf idx ch).get? j = buf.get? j := by
  unfold Grid.putChar
  split
  · next hc =>
    have hne : idx.toNat ≠ j := by omega
    simp [List.get?_eq_getElem?, List.getElem?_set_ne hne]
  · rfl

/-- C10: `put` modifies only the cells whose 0-based index lies in
`[col - 1, col - 2 + text.length]` and inside `[0, width)`; every other
cell keeps its previous character. -/
theorem C10_put_frame (text : List Char) :
    ∀ (width : Nat) (buf : List Char) (col : Int) (j : Nat),
      ¬((col - 1 ≤ (j : Int) ∧ (j : Int) ≤ col - 2 + text.length) ∧ j < width) →
      (Grid.put width buf col text).get? j = buf.get? j := by
  induction text with
  | nil => intro w buf col j _; rfl
  | cons ch rest ih =>
    intro w buf col j hout
    rw [Grid.put]
    rw [ih w _ (col + 1) j]
    · by_cases hg : 0 ≤ col - 1 ∧ col - 1 < (w : Int)
      · apply Grid.putChar_get?_ne
        intro heq
        apply hout
        refine ⟨⟨by omega, ?_⟩, by omega⟩
        have : (rest.length : Int) ≥ 0 := by positivity
        simp only [List.length_cons]
        push_cast
        omega
      · unfold Grid.putChar
        rw [if_neg hg]
    · intro hcon
      apply hout
      obtain ⟨⟨h1, h2⟩, h3⟩ := hcon
      refine ⟨⟨by omega, ?_⟩, h3⟩
      simp only [List.length_cons] at h2 ⊢
      push_cast at h2 ⊢
      omega

/-- C10 witness. -/
theorem C10_put_frame_witness :
    (Grid.put 4 (Grid.line 4) 2 ['a']).get? 0 = (Grid.line 4).get? 0 :=
  C10_put_frame ['a'] 4 (Grid.line 4) 2 0 (by simp)

/-- A single cell write touches nothing besides its in-range target: cell
`j` keeps its character unless `j` is the target index and lies inside
`[0, width)` — the clipping guard of `putChar`. -/
theorem Grid.putChar_get?_frame (width : Nat) (buf : List Char) (idx : Int) (ch : Char)
    (j : Nat) (h : ¬((j : Int) = idx ∧ j < width)) :
    (Grid.putChar width buf idx ch).get? j = buf.get? j := by
  unfold Grid.putChar
  split
  · next hc =>
    have hne : idx.toNat ≠ j := by omega
    simp [List.get?_eq_getElem?, List.getElem?_set_ne hne]
  · rfl

/-- The fill loop over `n` columns starting at column `c` targets exactly
the 0-based indices `c - 1 .. c - 2 + n`; every cell outside that window,
or at or beyond `width`, keeps its character. -/
theorem Grid.fillAux_get?_frame (n : Nat) :
    ∀ (width : Nat) (ch : Char) (buf : List Char) (c : Int) (j : Nat),
      ¬((c - 1 ≤ (j : Int) ∧ (j : Int) ≤ c - 2 + (n : Int)) ∧ j < width) →
      (Grid.fillAux width ch n buf c).get? j = buf.get? j := by
  induction n with
  | zero => intro w ch buf c j _; rfl
  | succ n ih =>
    intro w ch buf c j hout
    have hwin : ¬((c + 1 - 1 ≤ (j : Int) ∧ (j : Int) ≤ c + 1 - 2 + (n : Int)) ∧ j < w) := by
      intro hcon
      apply hout
      push_cast at hcon ⊢
      omega
    rw [Grid.fillAux, ih w ch _ (c + 1) j hwin]
    apply Grid.putChar_get?_frame w buf (c - 1) ch j
    intro hcon
    apply hout
    push_cast at hcon ⊢
    omega

/-- `fill col1 col2` writes only inside the window `[col1 - 1, col2 - 1]`
clipped to `[0, width)`: any write targeting a column outside `[1, width]`
is dropped and no other cell changes. -/
theorem Grid.fill_get?_frame (width : Nat) (buf : List Char) (col1 col2 : Int) (ch : Char)
    (j : Nat) (h : ¬((col1 - 1 ≤ (j : Int) ∧ (j : Int) ≤ col2 - 1) ∧ j < width)) :
    (Grid.fill width buf col1 col2 ch).get? j = buf.get? j := by
  unfold Grid.fill
  apply Grid.fillAux_get?_frame
  intro hcon
  apply h
  obtain ⟨⟨ha, hb⟩, hw⟩ := hcon
  refine ⟨⟨ha, ?_⟩, hw⟩
  omega

/-- A one-character `put` is a single cell write. -/
theorem Grid.put_single (width : Nat) (buf : List Char) (c : Int) (ch : Char) :
    Grid.put width buf c [ch] = Grid.putChar width buf (c - 1) ch := by
  rw [Grid.put, Grid.put]

/-- `hline col1 col2` (two corner writes and the interior fill) writes only
inside the window `[min col1 col2 - 1, max col1 col2 - 1]` clipped to
`[0, width)`; every other cell keeps its character. -/
theorem Grid.hline_get?_frame (width : Nat) (buf : List Char) (col1 col2 : Int)
    (j : Nat)
    (h : ¬((min col1 col2 - 1 ≤ (j : Int) ∧ (j : Int) ≤ max col1 col2 - 1) ∧ j < width)) :
    (Grid.hline width buf col1 col2).get? j = buf.get? j := by
  unfold Grid.hline
  rw [Grid.put_single, Grid.put_single]
  rw [Grid.putChar_get?_frame width _ (col2 - 1) '+' j
    (by intro hcon; apply h; omega)]
  rw [Grid.fill_get?_frame width _ (col1 + 1) (col2 - 1) '-' j
    (by intro hcon; apply h; omega)]
  exact Grid.putChar_get?_frame width buf (col1 - 1) '+' j
    (by intro hcon; apply h; omega)

/-- C5: every placement operation (`put`, `fill`, `hline`) keeps a buffer of
`width` cells at exactly `width` cells; a character of a `put` whose target
column is out of range is dropped (the result does not depend on its value);
`fill` and `hline` write nothing outside their target window clipped to
`[0, width)`, so their out-of-range writes are dropped too; the operations
are total, so no error is raised. -/
theorem C5_grid_invariant (width : Nat) (buf : List Char) (col col1 col2 : Int)
    (text : List Char) (ch : Char) (hbuf : buf.length = width) :
    (Grid.put width buf col text).length = width ∧
    (Grid.fill width buf col1 col2 ch).length = width ∧
    (Grid.hline width buf col1 col2).length = width ∧
    (∀ i : Nat, i < text.length →
      (col - 1 + (i : Int) < 0 ∨ (width : Int) ≤ col - 1 + (i : Int)) →
      ∀ c2 : Char, Grid.put width buf col text = Grid.put width buf col (text.set i c2)) ∧
    (∀ j : Nat, ¬((col1 - 1 ≤ (j : Int) ∧ (j : Int) ≤ col2 - 1) ∧ j < width) →
      (Grid.fill width buf col1 col2 ch).get? j = buf.get? j) ∧
    (∀ j : Nat,
      ¬((min col1 col2 - 1 ≤ (j : Int) ∧ (j : Int) ≤ max col1 col2 - 1) ∧ j < width) →
      (Grid.hline width buf col1 col2).get? j = buf.get? j) := by
  refine ⟨?_, ?_, ?_, ?_, ?_, ?_⟩
  · rw [Grid.put_length, hbuf]
  · rw [Grid.fill_length, hbuf]
  · rw [Grid.hline_length, hbuf]
  · intro i hi hout c2
    exact Grid.put_drop text width buf col i hi hout c2
  · intro j hj
    exact Grid.fill_get?_frame width buf col1 col2 ch j hj
  · intro j hj
    exact Grid.hline_get?_frame width buf col1 col2 j hj

/-- C5 witness: a 4-wide buffer keeps 4 cells under each operation, the
third character of a `put` at column 3 (target column 5) is dropped, and a
`fill` and an `hline` over columns 2..9 of the 4-wide buffer leave cell 0
untouched. -/
theorem C5_grid_invariant_witness :
    (Grid.put 4 (Grid.line 4) 3 ['a', 'b', 'c']).length = 4 ∧
    Grid.put 4 (Grid.line 4) 3 ['a', 'b', 'c'] =
      Grid.put 4 (Grid.line 4) 3 (['a', 'b', 'c'].set 2 'z') ∧
    (Grid.fill 4 (Grid.line 4) 2 9 'x').get? 0 = (Grid.line 4).get? 0 ∧
    (Grid.hline 4 (Grid.line 4) 2 9).get? 0 = (Grid.line 4).get? 0 :=
  ⟨(C5_grid_invariant 4 (Grid.line 4) 3 2 9 ['a', 'b', 'c'] 'x' (by simp [Grid.line])).1,
   (C5_grid_invariant 4 (Grid.line 4) 3 2 9 ['a', 'b', 'c'] 'x' (by simp [Grid.line])).2.2.2.1
     2 (by decide) (by decide) 'z',
   (C5_grid_invariant 4 (Grid.line 4) 3 2 9 ['a', 'b', 'c'] 'x' (by simp [Grid.line])).2.2.2.2.1
     0 (by decide),
   (C5_grid_invariant 4 (Grid.line 4) 3 2 9 ['a', 'b', 'c'] 'x' (by simp [Grid.line])).2.2.2.2.2
     0 (by decide)⟩

/-- C6 counterexample: the claim asserts a result of length `totalWidth` for
every `totalWidth >= 2`, but `box_label_str "" 2` has length 3. -/
theorem C6_counterexample :
    (2 : Int) ≥ 2 ∧ (Grid.box_label_str [] 2).length ≠ 2 := by
  decide

/-- C6 (amended): whenever `totalWidth >= label.length + 3`, the label row
has length exactly `totalWidth`, begins and ends with a bar, and its
interior is a space, the label, then space padding. -/
theorem C6_box_label (label : List Char) (width : Int)
    (h : (label.length : Int) + 3 ≤ width) :
    Grid.box_label_str label width =
      '|' :: ' ' :: (label ++ List.replicate (width - 3 - label.length).toNat ' ') ++ ['|'] ∧
    ((Grid.box_label_str label width).length : Int) = width := by
  have hrep : (width - 2 - ((' ' :: label).length : Int)).toNat
      = (width - 3 - label.length).toNat := by
    push_cast [List.length_cons]
    omega
  constructor
  · unfold Grid.box_label_str ljustI
    rw [hrep]
    simp
  · unfold Grid.box_label_str ljustI
    simp only [List.length_append, List.length_cons, List.length_replicate,
      List.length_nil]
    omega

/-- C6 witness. -/
theorem C6_box_label_witness :
    Grid.box_label_str ['a'] 4 =
      '|' :: ' ' :: (['a'] ++ List.replicate ((4 : Int) - 3 - (['a'].length : Nat)).toNat ' ')
        ++ ['|'] ∧
    ((Grid.box_label_str ['a'] 4).length : Int) = 4 :=
  C6_box_label ['a'] 4 (by decide)

/-- Newline used to split and join markdown text. -/
def nlChar : Char := Char.ofNat 10

/-- The backtick character (code point 96) of a markdown fence marker. -/
def fenceChar : Char := Char.ofNat 96

/-- A bare fence line: three fence characters. -/
def fenceLine : List Char := [fenceChar, fenceChar, fenceChar]

/-- Python `text.split(chr(10))`. -/
def splitNL : List Char → List (List Char)
  | [] => [[]]
  | c :: rest =>
    match splitNL rest with
    | [] => [[]]
    | h :: t => if c = nlChar then [] :: h :: t else (c :: h) :: t

/-- Python `chr(10).join(xs)`. -/
def joinNL (xs : List (List Char)) : List Char := List.intercalate [nlChar] xs

/-- Python `str.strip()`: drop whitespace from both ends. -/
def stripChars (l : List Char) : List Char :=
  ((l.dropWhile Char.isWhitespace).reverse.dropWhile Char.isWhitespace).reverse

/-- Python `line.strip().startswith(3 backticks)`. -/
def isFence (line : List Char) : Bool := fenceLine.isPrefixOf (stripChars line)

/-- Python truthiness of the `heading` argument: present and non-empty. -/
def hTrue : Option (List Char) → Bool
  | none => false
  | some s => !s.isEmpty

/-- Python `line.startswith(hash)`. -/
def startsWithHash : List Char → Bool
  | [] => false
  | c :: _ => c = '#'

/-- Python substring test `needle in haystack`. -/
def containsSeq (needle : List Char) : List Char → Bool
  | [] => needle.isEmpty
  | c :: rest => needle.isPrefixOf (c :: rest) || containsSeq needle rest

/-- Python `line.startswith(hash) and heading.lower() in line.lower()`. -/
def headingLineMatch (heading : Option (List Char)) (line : List Char) : Bool :=
  match heading with
  | none => false
  | some s =>
    startsWithHash line && containsSeq (s.map Char.toLower) (line.map Char.toLower)

/-- The fenced-block scan of `extract_from_markdown` (verify.py lines 59-83):
state is `heading_found`, `in_block` and the current block; returns the
complete blocks in document order, stopping after the first one when a
heading selector is active. -/
def scanBlocks (heading : Option (List Char)) :
    Bool → Bool → List (List Char) → List (List Char) → List (List (List Char))
  | _, _, _, [] => []
  | hf, inB, cur, line :: rest =>
    if hTrue heading && !hf then
      if headingLineMatch heading line then scanBlocks heading true inB cur rest
      else scanBlocks heading hf inB cur rest
    else if isFence line && !inB then
      scanBlocks heading hf true [] rest
    else if isFence line && inB then
      cur :: (if hTrue heading then [] else scanBlocks heading hf false [] rest)
    else if inB then
      scanBlocks heading hf inB (cur ++ [line]) rest
    else
      scanBlocks heading hf inB cur rest

/-- Blocks of a line list: each complete fenced block, lines joined. -/
def mdBlocksL (heading : Option (List Char)) (ls : List (List Char)) : List (List Char) :=
  (scanBlocks heading heading.isNone false [] ls).map joinNL

/-- Blocks of a document. -/
def mdBlocks (text : List Char) (heading : Option (List Char)) : List (List Char) :=
  mdBlocksL heading (splitNL text)

/-- Final `in_block` state of the heading-free scan: toggled at each fence. -/
def scanInB : Bool → List (List Char) → Bool
  | inB, [] => inB
  | inB, line :: rest => if isFence line then scanInB (!inB) rest else scanInB inB rest

/-- `extract_from_markdown(text, heading, block_num)`: the returned content
together with a flag recording whether the out-of-range error was printed. -/
def extract_from_markdown (text : List Char) (heading : Option (List Char))
    (blockNum : Option Int) : List Char × Bool :=
  let blocks := mdBlocks text heading
  match blockNum with
  | some n =>
    if 1 ≤ n ∧ n ≤ (blocks.length : Int) then (blocks.getD (n - 1).toNat [], false)
    else ([], true)
  | none =>
    if hTrue heading && !blocks.isEmpty then (blocks.getD 0 [], false)
    else if !blocks.isEmpty then (joinNL blocks, false)
    else (text, false)

/-- Once inside a block, lines that are not fences only grow the current
block; if no closing fence ever comes, no block is emitted at all. -/
theorem scanBlocks_unterminated :
    ∀ (junk : List (List Char)) (cur : List (List Char)),
      (∀ l ∈ junk, isFence l = false) →
      scanBlocks none true true cur junk = [] := by
  intro junk
  induction junk with
  | nil => intro cur _; rfl
  | cons line rest ih =>
    intro cur hnf
    have hline : isFence line = false := hnf line (by simp)
    rw [scanBlocks]
    simp only [hTrue, hline]
    simp
    exact ih (cur ++ [line]) (fun l hl => hnf l (by simp [hl]))

/-- Appending an opening fence followed by non-fence lines to a document
whose scan ends outside a block adds no block. -/
theorem scanBlocks_append_open :
    ∀ (ls : List (List Char)) (inB : Bool) (cur junk : List (List Char)),
      scanInB inB ls = false →
      (∀ l ∈ junk, isFence l = false) →
      scanBlocks none true inB cur (ls ++ fenceLine :: junk) =
        scanBlocks none true inB cur ls := by
  intro ls
  induction ls with
  | nil =>
    intro inB cur junk hend hnf
    have hinB : inB = false := hend
    subst hinB
    rw [List.nil_append, scanBlocks, scanBlocks]
    have hfence : isFence fenceLine = true := by decide
    simp only [hTrue, hfence]
    simp
    exact scanBlocks_unterminated junk [] hnf
  | cons line rest ih =>
    intro inB cur junk hend hnf
    rw [List.cons_append, scanBlocks, scanBlocks]
    simp only [hTrue]
    by_cases hf : isFence line = true
    · cases inB with
      | false =>
        simp only [hf]
        simp
        apply ih
        · have hstep : scanInB false (line :: rest) = scanInB true rest := by
            rw [scanInB]
            simp [hf]
          rw [← hstep]; exact hend
        · exact hnf
      | true =>
        simp only [hf]
        simp
        apply ih
        · have hstep : scanInB true (line :: rest) = scanInB false rest := by
            rw [scanInB]
            simp [hf]
          rw [← hstep]; exact hend
        · exact hnf
    · have hf' : isFence line = false := by simpa using hf
      have hend' : scanInB inB rest = false := by
        have hstep : scanInB inB (line :: rest) = scanInB inB rest := by
          rw [scanInB]
          simp [hf']
        rw [← hstep]; exact hend
      cases inB with
      | false =>
        simp only [hf']
        simp
        exact ih false cur junk hend' hnf
      | true =>
        simp only [hf']
        simp
        exact ih true (cur ++ [line]) junk hend' hnf

/-- If no line matches the heading, the scan with an unfound non-empty
heading yields no block. -/
theorem scanBlocks_no_heading_match :
    ∀ (ls : List (List Char)) (h : List Char) (inB : Bool) (cur : List (List Char)),
      hTrue (some h) = true →
      (∀ l ∈ ls, headingLineMatch (some h) l = false) →
      scanBlocks (some h) false inB cur ls = [] := by
  intro ls
  induction ls with
  | nil => intro h inB cur _ _; rfl
  | cons line rest ih =>
    intro h inB cur htr hnm
    rw [scanBlocks]
    simp only [htr, hnm line (by simp)]
    simp
    exact ih h inB cur htr (fun l hl => hnm l (by simp [hl]))

/-- C7: with a block number and no heading, the extractor returns the
`block_num`-th complete fenced block unmodified when `1 <= block_num <=
number of blocks`, and otherwise reports an error and returns empty
content. -/
theorem C7_block_selection (text : List Char) (n : Int) :
    (1 ≤ n ∧ n ≤ ((mdBlocks text none).length : Int) →
      extract_from_markdown text none (some n) =
        ((mdBlocks text none).getD (n - 1).toNat [], false)) ∧
    (¬(1 ≤ n ∧ n ≤ ((mdBlocks text none).length : Int)) →
      extract_from_markdown text none (some n) = ([], true)) := by
  constructor
  · intro h
    simp only [extract_from_markdown, if_pos h]
  · intro h
    simp only [extract_from_markdown, if_neg h]

/-- C7 witness document: two complete fenced blocks, A and B-C. -/
def mdDoc2 : List Char :=
  joinNL [fenceLine, ['A'], fenceLine, ['x'], fenceLine, ['B'], ['C'], fenceLine]

/-- C7 witness: block 2 of a two-block document. -/
theorem C7_block_selection_witness :
    extract_from_markdown mdDoc2 none (some 2) =
      ((mdBlocks mdDoc2 none).getD ((2 : Int) - 1).toNat [], false) :=
  (C7_block_selection mdDoc2 2).1 (by decide)

/-- C8: with neither selector, the extractor returns all fenced blocks
joined by a newline, or the whole input unchanged when no complete fenced
block exists; and lines following a fence that is opened but never closed
contribute no block. -/
theorem C8_concat_fallback (text : List Char) :
    (mdBlocks text none ≠ [] →
      extract_from_markdown text none none = (joinNL (mdBlocks text none), false)) ∧
    (mdBlocks text none = [] →
      extract_from_markdown text none none = (text, false)) ∧
    (∀ junk : List (List Char),
      scanInB false (splitNL text) = false →
      (∀ l ∈ junk, isFence l = false) →
      scanBlocks none true false [] (splitNL text ++ fenceLine :: junk) =
        scanBlocks none true false [] (splitNL text)) := by
  refine ⟨?_, ?_, ?_⟩
  · intro hne
    have hemp : (mdBlocks text none).isEmpty = false := by
      cases hmd : mdBlocks text none with
      | nil => exact absurd hmd hne
      | cons a l => rfl
    simp [extract_from_markdown, hTrue, hemp]
  · intro hnil
    have hemp : (mdBlocks text none).isEmpty = true := by rw [hnil]; rfl
    simp [extract_from_markdown, hTrue, hemp, hnil]
  · intro junk hend hnf
    exact scanBlocks_append_open (splitNL text) false [] junk hend hnf

/-- C8 witness document: one complete fenced block containing A. -/
def mdDocB : List Char := joinNL [fenceLine, ['A'], fenceLine]

/-- C8 witness. -/
theorem C8_concat_fallback_witness :
    extract_from_markdown mdDocB none none = (joinNL (mdBlocks mdDocB none), false) ∧
    extract_from_markdown ['h', 'i'] none none = (['h', 'i'], false) ∧
    scanBlocks none true false [] (splitNL mdDocB ++ fenceLine :: [['j']]) =
      scanBlocks none true false [] (splitNL mdDocB) :=
  ⟨(C8_concat_fallback mdDocB).1 (by decide),
   (C8_concat_fallback ['h', 'i']).2.1 (by decide),
   (C8_concat_fallback mdDocB).2.2 [['j']] (by decide) (by decide)⟩

/-- C9: with a non-empty heading selector and no block number, if no line
matches the heading, or no complete fenced block follows the heading, the
whole original input is returned unchanged. -/
theorem C9_heading_fallback (text h : List Char) (hne : h ≠ [])
    (hcond : (∀ line ∈ splitNL text, headingLineMatch (some h) line = false) ∨
      mdBlocks text (some h) = []) :
    extract_from_markdown text (some h) none = (text, false) := by
  have htr : hTrue (some h) = true := by
    cases h with
    | nil => exact absurd rfl hne
    | cons a l => rfl
  have hblocks : mdBlocks text (some h) = [] := by
    rcases hcond with hnm | hb
    · unfold mdBlocks mdBlocksL
      rw [Option.isNone_some,
        scanBlocks_no_heading_match (splitNL text) h false [] htr hnm]
      rfl
    · exact hb
  have hemp : (mdBlocks text (some h)).isEmpty = true := by rw [hblocks]; rfl
  simp [extract_from_markdown, hemp, hblocks]

/-- C9 witness: heading not present in the document. -/
theorem C9_heading_fallback_witness :
    extract_from_markdown ['x'] (some ['T']) none = (['x'], false) :=
  C9_heading_fallback ['x'] ['T'] (by decide) (Or.inl (by decide))

/-- Width of the verifier grid: the longest line length, 0 when empty. -/
def maxLen (lines : List (List Char)) : Nat :=
  lines.foldr (fun l m => max l.length m) 0

/-- Right-pad a line with spaces to width `w` (Python `ljust`). -/
def padTo (w : Nat) (l : List Char) : List Char :=
  l ++ List.replicate (w - l.length) ' '

/-- The right-padded grid the verifier scans. -/
def padGrid (lines : List (List Char)) : List (List Char) :=
  lines.map (padTo (maxLen lines))

/-- Character of a grid at 0-based row and column. -/
def cellAt (g : List (List Char)) (r c : Nat) : Char :=
  (g.getD r []).getD c ' '

/-- Characters that form horizontal lines (verify.py `HLINE_CHARS`). -/
def hlineChars : List Char := ['+', '-']

/-- Characters that form vertical connections (verify.py `VLINE_CHARS`). -/
def vlineChars : List Char := ['|', '^', 'v']

/-- The left-scanning while loop of `_is_structural`: called with `m` it
starts at `scan = m - 1` and walks left over alphabetic characters,
returning the final `scan` (first index left of the run, possibly -1). -/
def scanLeft (row : List Char) : Nat → Int
  | 0 => -1
  | n + 1 => if (row.getD n ' ').isAlpha then scanLeft row n else (n : Int)

/-- The right-scanning while loop of `_is_structural`, with structural fuel
`width - scan`: walks right over alphabetic characters while `scan < width`,
returning the final `scan`. -/
def scanRightAux (row : List Char) (width : Nat) : Nat → Nat → Nat
  | 0, scan => scan
  | fuel + 1, scan =>
    if scan < width ∧ (row.getD scan ' ').isAlpha then
      scanRightAux row width fuel (scan + 1)
    else scan

/-- Entry point of the right-scanning loop. -/
def scanRight (row : List Char) (width scan : Nat) : Nat :=
  scanRightAux row width (width - scan) scan

/-- `_is_structural(ch, row, col, padded, width)` of verify.py, the row
`padded[row]` being passed directly: decides whether a `^`/`v` at `col` is
a diagram connector; `|` is always structural. -/
def isStructural (ch : Char) (row : List Char) (col width : Nat) : Bool :=
  if ch = '|' then true
  else
    let left_char := if col > 0 then row.getD (col - 1) ' ' else ' '
    let right_char := if col + 1 < width then row.getD (col + 1) ' ' else ' '
    if left_char.isAlpha && right_char.isAlpha then false
    else if left_char.isAlpha || right_char.isAlpha then
      if left_char.isAlpha && right_char.isAlpha then false
      else if left_char.isAlpha &&
          decide (2 ≤ (col : Int) - 1 - scanLeft row (col - 1)) then false
      else if right_char.isAlpha &&
          decide (2 ≤ scanRight row width (col + 2) - col - 1) then false
      else true
    else true

/-- Modelled from the claim wording: length of the contiguous alphabetic
run at indices `k-1, k-2, ...` of the row. -/
def alphaRunLeft (row : List Char) : Nat → Nat
  | 0 => 0
  | n + 1 => if (row.getD n ' ').isAlpha then alphaRunLeft row n + 1 else 0

/-- Modelled from the claim wording: length of the contiguous alphabetic
run at indices `k, k+1, ...` while inside `width`, with structural fuel. -/
def alphaRunRightAux (row : List Char) (width : Nat) : Nat → Nat → Nat
  | 0, _ => 0
  | fuel + 1, k =>
    if k < width ∧ (row.getD k ' ').isAlpha then
      alphaRunRightAux row width fuel (k + 1) + 1
    else 0

/-- Entry point of the right run. -/
def alphaRunRight (row : List Char) (width k : Nat) : Nat :=
  alphaRunRightAux row width (width - k) k

/-- The Structural Classifier exactly as the claim states it: both
neighbors alphabetic is never structural, one alphabetic neighbor is
structural only when its contiguous run (neighbor included) stays below 2,
no alphabetic neighbor is structural, and a bar is always structural. -/
def isStructuralSpec (ch : Char) (row : List Char) (col width : Nat) : Bool :=
  if ch = '|' then true
  else
    let left_char := if col > 0 then row.getD (col - 1) ' ' else ' '
    let right_char := if col + 1 < width then row.getD (col + 1) ' ' else ' '
    if left_char.isAlpha && right_char.isAlpha then false
    else if left_char.isAlpha then !(decide (2 ≤ alphaRunLeft row col))
    else if right_char.isAlpha then !(decide (2 ≤ alphaRunRight row width (col + 1)))
    else true

theorem scanLeft_eq (row : List Char) :
    ∀ m : Nat, scanLeft row m = (m : Int) - 1 - alphaRunLeft row m := by
  intro m
  induction m with
  | zero => rfl
  | succ n ih =>
    rw [scanLeft, alphaRunLeft]
    by_cases ha : (row.getD n ' ').isAlpha = true
    · rw [if_pos ha, if_pos ha, ih]
      push_cast
      omega
    · rw [if_neg ha, if_neg ha]
      push_cast
      omega

theorem scanRightAux_eq (row : List Char) (width : Nat) :
    ∀ (fuel k : Nat),
      scanRightAux row width fuel k = k + alphaRunRightAux row width fuel k := by
  intro fuel
  induction fuel with
  | zero => intro k; rfl
  | succ fuel ih =>
    intro k
    rw [scanRightAux, alphaRunRightAux]
    by_cases hc : k < width ∧ (row.getD k ' ').isAlpha = true
    · rw [if_pos hc, if_pos hc, ih]
      omega
    · rw [if_neg hc, if_neg hc]
      omega

theorem scanRight_eq (row : List Char) (width k : Nat) :
    scanRight row width k = k + alphaRunRight row width k :=
  scanRightAux_eq row width (width - k) k

/-- Stepping the right run one cell when the first cell is alphabetic and
in range. -/
theorem alphaRunRight_succ (row : List Char) (width k : Nat)
    (h : k < width) (ha : (row.getD k ' ').isAlpha = true) :
    alphaRunRight row width k = alphaRunRight row width (k + 1) + 1 := by
  unfold alphaRunRight
  have hfuel : width - k = (width - (k + 1)) + 1 := by omega
  rw [hfuel, alphaRunRightAux, if_pos ⟨h, ha⟩]

/-- C2: `_is_structural` classifies exactly as the claim describes, for the
characters the claim covers. -/
theorem C2_structural_classifier (ch : Char) (row : List Char) (col width : Nat)
    (_hch : ch = '|' ∨ ch = '^' ∨ ch = 'v') :
    isStructural ch row col width = isStructuralSpec ch row col width := by
  by_cases hb : ch = '|'
  · simp [isStructural, isStructuralSpec, hb]
  · simp only [isStructural, isStructuralSpec, if_neg hb]
    set L := (if col > 0 then row.getD (col - 1) ' ' else ' ') with hLdef
    set R := (if col + 1 < width then row.getD (col + 1) ' ' else ' ') with hRdef
    cases hL : L.isAlpha with
    | true =>
      cases hR : R.isAlpha with
      | true => simp [hL, hR]
      | false =>
        have hLa : (if col > 0 then row.getD (col - 1) ' ' else ' ').isAlpha = true := by
          rw [← hLdef]; exact hL
        have hcol : 0 < col := by
          by_contra hc
          have hc0 : col = 0 := by omega
          rw [hc0] at hLa
          simp at hLa
        obtain ⟨m, hm⟩ : ∃ m, col = m + 1 := ⟨col - 1, by omega⟩
        subst hm
        have halpham : (row.getD m ' ').isAlpha = true := by
          have hx : (if m + 1 > 0 then row.getD (m + 1 - 1) ' ' else ' ')
              = row.getD m ' ' := by simp
          rw [hx] at hLa
          exact hLa
        have hleft : (((m + 1 : Nat) : Int) - 1 - scanLeft row (m + 1 - 1))
            = (alphaRunLeft row (m + 1) : Int) := by
          have hm1 : (m + 1 : Nat) - 1 = m := by omega
          rw [hm1, scanLeft_eq, alphaRunLeft, if_pos halpham]
          push_cast
          omega
        have hiff : (2 ≤ ((m + 1 : Nat) : Int) - 1 - scanLeft row (m + 1 - 1))
            ↔ (2 ≤ alphaRunLeft row (m + 1)) := by
          rw [hleft]
          constructor <;> intro h <;> exact_mod_cast h
        have hdec : decide (2 ≤ ((m + 1 : Nat) : Int) - 1 - scanLeft row (m + 1 - 1))
            = decide (2 ≤ alphaRunLeft row (m + 1)) := decide_eq_decide.mpr hiff
        simp only [hL, hR, hdec, Bool.true_and, Bool.and_false, Bool.false_and,
          Bool.true_or, Bool.or_false]
        cases hd : decide (2 ≤ alphaRunLeft row (m + 1)) <;> simp [hd]
    | false =>
      cases hR : R.isAlpha with
      | true =>
        have hRa : (if col + 1 < width then row.getD (col + 1) ' ' else ' ').isAlpha
            = true := by
          rw [← hRdef]; exact hR
        have hw : col + 1 < width := by
          by_contra hc
          rw [if_neg hc] at hRa
          simp at hRa
        have halphac : (row.getD (col + 1) ' ').isAlpha = true := by
          rw [if_pos hw] at hRa
          exact hRa
        have hright : scanRight row width (col + 2) - col - 1
            = alphaRunRight row width (col + 1) := by
          rw [scanRight_eq, alphaRunRight_succ row width (col + 1) hw halphac]
          have h21 : alphaRunRight row width (col + 1 + 1)
              = alphaRunRight row width (col + 2) := rfl
          rw [h21]
          omega
        have hiff : (2 ≤ scanRight row width (col + 2) - col - 1)
            ↔ (2 ≤ alphaRunRight row width (col + 1)) := by
          rw [hright]
        have hdec : decide (2 ≤ scanRight row width (col + 2) - col - 1)
            = decide (2 ≤ alphaRunRight row width (col + 1)) := decide_eq_decide.mpr hiff
        simp only [hL, hR, hdec, Bool.false_and, Bool.true_and, Bool.and_false,
          Bool.false_or, Bool.or_true]
        cases hd : decide (2 ≤ alphaRunRight row width (col + 1)) <;> simp [hd]
      | false => simp [hL, hR]

/-- C2 witness: the v inside Server, letters on both sides. -/
theorem C2_structural_classifier_witness :
    isStructural 'v' ['S', 'e', 'r', 'v', 'e', 'r'] 3 6 =
      isStructuralSpec 'v' ['S', 'e', 'r', 'v', 'e', 'r'] 3 6 :=
  C2_structural_classifier 'v' ['S', 'e', 'r', 'v', 'e', 'r'] 3 6 (Or.inr (Or.inr rfl))

/-- All grid cells in row-major order, as the verifier scans them. -/
def allCells (nrows ncols : Nat) : List (Nat × Nat) :=
  (List.range nrows).flatMap (fun r => (List.range ncols).map (fun c => (r, c)))

/-- One junction-audit issue: the vertical character `ch` at 1-based
(line, col) meets a '-' in direction `dr` (-1 above, 1 below) on 1-based
line `meetsLine` and needs a '+'. -/
structure JunctionIssue where
  line : Nat
  col : Nat
  ch : Char
  dr : Int
  meetsLine : Nat
deriving Repr, DecidableEq

/-- One direction of the junction audit at a cell: the issues produced and
the verified-junction count contributed. -/
def junctDir (padded : List (List Char)) (row col : Nat) (ch : Char) (dr : Int) :
    List JunctionIssue × Nat :=
  let nr := (row : Int) + dr
  if 0 ≤ nr ∧ nr < (padded.length : Int) then
    let adj := cellAt padded nr.toNat col
    if adj ∈ hlineChars then
      if adj = '+' then ([], 1)
      else ([⟨row + 1, col + 1, ch, dr, nr.toNat + 1⟩], 0)
    else ([], 0)
  else ([], 0)

/-- `check_junctions(lines)` of verify.py: every structural `|`/`^`/`v` is
checked above and below; an adjacent `+` counts as a verified junction, an
adjacent `-` is an issue.  Returns the issue list and the verified count. -/
def check_junctions (lines : List (List Char)) : List JunctionIssue × Nat :=
  let width := maxLen lines
  let padded := padGrid lines
  (allCells padded.length width).foldl
    (fun acc rc =>
      let ch := cellAt padded rc.1 rc.2
      if ch ∈ vlineChars then
        if (ch ∈ ['^', 'v']) ∧ isStructural ch (padded.getD rc.1 []) rc.2 width = false then
          acc
        else
          let a := junctDir padded rc.1 rc.2 ch (-1)
          let b := junctDir padded rc.1 rc.2 ch 1
          (acc.1 ++ a.1 ++ b.1, acc.2 + a.2 + b.2)
      else acc)
    ([], 0)

/-- The three-line box diagram of the claim. -/
def diagOk : List (List Char) :=
  [['+', '-', '-', '+'], ['|', ' ', ' ', '|'], ['+', '-', '-', '+']]

/-- The variant with the bottom-border '+' under the left '|' replaced by '-'. -/
def diagBad : List (List Char) :=
  [['+', '-', '-', '+'], ['|', ' ', ' ', '|'], ['-', '-', '-', '+']]

/-- C1 counterexample: on the clean box the audit reports 4 verified
junctions (each `|` meets `+` above and below and each meeting counts),
not 2 as claimed. -/
theorem C1_counterexample : (check_junctions diagOk).2 ≠ 2 := by decide

/-- C1 (amended): the clean box yields 4 verified junctions and no issue;
the variant with a '-' under the left `|` yields exactly one issue, naming
the `|` at line 2 column 1 and the '-' below on line 3, and 3 verified
junctions. -/
theorem C1_junction_audit :
    check_junctions diagOk = ([], 4) ∧
    check_junctions diagBad = ([⟨2, 1, '|', 1, 3⟩], 3) := by
  constructor
  · decide
  · decide

/-- The connector set of the arrow-connectivity check. -/
def connectingChars : List Char := ['+', '-', '|', '^', 'v', '<', '>']

/-- The arrow characters checked by `check_arrows`. -/
def arrowChars : List Char := ['^', 'v', '<', '>']

/-- Whether some of the four orthogonal in-bounds neighbors of (row, col)
holds a connector character. -/
def connectedAt (padded : List (List Char)) (width row col : Nat) : Bool :=
  [((-1 : Int), (0 : Int)), (1, 0), (0, -1), (0, 1)].any fun d =>
    decide (0 ≤ (row : Int) + d.1) && decide ((row : Int) + d.1 < (padded.length : Int)) &&
    decide (0 ≤ (col : Int) + d.2) && decide ((col : Int) + d.2 < (width : Int)) &&
    decide (cellAt padded ((row : Int) + d.1).toNat ((col : Int) + d.2).toNat ∈ connectingChars)

/-- One arrow-connectivity issue: a floating arrow `ch` at 1-based
(line, col), connected to no line. -/
structure ArrowIssue where
  line : Nat
  col : Nat
  ch : Char
deriving Repr, DecidableEq

/-- The per-cell step of `check_arrows`. -/
def arrowCheckCell (padded : List (List Char)) (width : Nat) (rc : Nat × Nat) :
    Option ArrowIssue :=
  let ch := cellAt padded rc.1 rc.2
  if ch ∈ arrowChars then
    if (ch ∈ ['^', 'v']) ∧ isStructural ch (padded.getD rc.1 []) rc.2 width = false then none
    else if connectedAt padded width rc.1 rc.2 then none
    else some ⟨rc.1 + 1, rc.2 + 1, ch⟩
  else none

/-- `check_arrows(lines)` of verify.py: every arrow character (structural
filtering applied to `^`/`v`) must touch a connector in one of the four
orthogonal directions; otherwise a floating-arrow issue is reported. -/
def check_arrows (lines : List (List Char)) : List ArrowIssue :=
  (allCells (padGrid lines).length (maxLen lines)).filterMap
    (arrowCheckCell (padGrid lines) (maxLen lines))

theorem mem_allCells (n w r c : Nat) : ((r, c) ∈ allCells n w) ↔ (r < n ∧ c < w) := by
  simp [allCells, List.mem_flatMap, List.mem_map, List.mem_range]

/-- Characterises when the per-cell arrow check produces an issue. -/
theorem arrowCheckCell_some (padded : List (List Char)) (width : Nat) (rc : Nat × Nat)
    (iss : ArrowIssue) :
    arrowCheckCell padded width rc = some iss ↔
      cellAt padded rc.1 rc.2 ∈ arrowChars ∧
      ¬(cellAt padded rc.1 rc.2 ∈ ['^', 'v'] ∧
          isStructural (cellAt padded rc.1 rc.2) (padded.getD rc.1 []) rc.2 width = false) ∧
      connectedAt padded width rc.1 rc.2 = false ∧
      iss = ⟨rc.1 + 1, rc.2 + 1, cellAt padded rc.1 rc.2⟩ := by
  simp only [arrowCheckCell]
  split_ifs with h1 h2 h3
  · simp at h2
    obtain ⟨hmem, hs⟩ := h2
    rcases hmem with h | h <;> rw [h] at hs <;> simp [hs, h]
  · simp [h1, h2, h3]
  · simp only [Bool.not_eq_true] at h3
    simp at h2
    simp [h1, h3]
    constructor
    · intro he
      exact ⟨h2, he.symm⟩
    · intro hpair
      exact hpair.2.symm
  · simp [h1]

/-- C4: an arrow character of the padded grid (a structural one when it is
`^` or `v`) yields a floating-arrow issue at its position exactly when no
orthogonal in-bounds neighbor is a connector character. -/
theorem C4_arrow_connectivity (lines : List (List Char)) (row col : Nat) (ch : Char)
    (hrow : row < (padGrid lines).length) (hcol : col < maxLen lines)
    (hch : ch = cellAt (padGrid lines) row col)
    (harrow : ch ∈ arrowChars)
    (hstruct : ch ∈ ['^', 'v'] →
      isStructural ch ((padGrid lines).getD row []) col (maxLen lines) = true) :
    (ArrowIssue.mk (row + 1) (col + 1) ch ∈ check_arrows lines ↔
      connectedAt (padGrid lines) (maxLen lines) row col = false) := by
  constructor
  · intro hmem
    rw [check_arrows, List.mem_filterMap] at hmem
    obtain ⟨rc, _hrcmem, hrc⟩ := hmem
    rw [arrowCheckCell_some] at hrc
    obtain ⟨_, _, hconn, hiss⟩ := hrc
    have hinj : row + 1 = rc.1 + 1 ∧ col + 1 = rc.2 + 1 ∧ ch = cellAt (padGrid lines) rc.1 rc.2 := by
      have h1 := congrArg ArrowIssue.line hiss
      have h2 := congrArg ArrowIssue.col hiss
      have h3 := congrArg ArrowIssue.ch hiss
      exact ⟨h1, h2, h3⟩
    have hr : rc.1 = row := by omega
    have hc : rc.2 = col := by omega
    rw [hr, hc] at hconn
    exact hconn
  · intro hconn
    rw [check_arrows, List.mem_filterMap]
    refine ⟨(row, col), (mem_allCells _ _ _ _).mpr ⟨hrow, hcol⟩, ?_⟩
    rw [arrowCheckCell_some]
    refine ⟨by rw [← hch]; exact harrow, ?_, hconn, by rw [← hch]⟩
    intro hcontra
    obtain ⟨hin, hfalse⟩ := hcontra
    rw [← hch] at hin hfalse
    rw [hstruct hin] at hfalse
    exact absurd hfalse (by simp)

/-- C4 witness: an isolated v on a one-cell grid floats. -/
theorem C4_arrow_connectivity_witness :
    ArrowIssue.mk 1 1 'v' ∈ check_arrows [['v']] :=
  (C4_arrow_connectivity [['v']] 0 0 'v' (by decide) (by decide) (by decide)
    (by decide) (fun _ => by decide)).mpr (by decide)

/-- A detected horizontal border: 1-based line, 1-based start column,
total width from first to last '+' inclusive, literal text. -/
structure Box where
  line : Nat
  col : Nat
  width : Nat
  text : List Char
deriving Repr, DecidableEq

/-- The character class of the border pattern interior. -/
def isBorderChar (c : Char) : Bool := c = '+' || c = '-'

/-- Exclusive end of the maximal run of border characters from `k`, with
structural fuel. -/
def runEndAux (s : List Char) : Nat → Nat → Nat
  | 0, k => k
  | fuel + 1, k =>
    if k < s.length ∧ isBorderChar (s.getD k ' ') = true then runEndAux s fuel (k + 1)
    else k

/-- Entry point of the run scan. -/
def runEnd (s : List Char) (k : Nat) : Nat := runEndAux s (s.length - k) k

/-- Largest index `p` with `lo <= p <= start` and a '+' at `p`, searching
downward: the backtracking of the greedy border pattern. -/
def lastPlus (s : List Char) (lo : Nat) : Nat → Option Nat
  | 0 => if lo = 0 ∧ s.getD 0 ' ' = '+' then some 0 else none
  | p + 1 =>
    if lo ≤ p + 1 then
      (if s.getD (p + 1) ' ' = '+' then some (p + 1) else lastPlus s lo p)
    else none

/-- Match of the border pattern (a '+', one or more of '+'/'-', a final
'+') at index `i`: the inclusive end index of the leftmost-longest match. -/
def borderMatchAt (s : List Char) (i : Nat) : Option Nat :=
  if i < s.length ∧ s.getD i ' ' = '+' then lastPlus s (i + 2) (runEnd s (i + 1) - 1)
  else none

/-- Left-to-right non-overlapping border matches from index `i`, each as
(start, inclusive end), with structural fuel. -/
def findBordersAux (s : List Char) : Nat → Nat → List (Nat × Nat)
  | 0, _ => []
  | fuel + 1, i =>
    if i < s.length then
      match borderMatchAt s i with
      | some p => (i, p) :: findBordersAux s fuel (p + 1)
      | none => findBordersAux s fuel (i + 1)
    else []

/-- All border matches of one line. -/
def findBorders (s : List Char) : List (Nat × Nat) := findBordersAux s (s.length + 1) 0

/-- All detected borders of the diagram, in scan order. -/
def boxesOf (lines : List (List Char)) : List Box :=
  lines.enum.flatMap fun rl =>
    (findBorders rl.2).map fun se =>
      ⟨rl.1 + 1, se.1 + 1, se.2 - se.1 + 1, (rl.2.drop se.1).take (se.2 - se.1 + 1)⟩

/-- A box-consistency issue: a width mismatch at a start column listing
every (line, width) of the group, or a missing-left-padding label. -/
inductive BoxIssue where
  | widthMismatch (col : Nat) (entries : List (Nat × Nat))
  | missingPadding (line : Nat) (col : Nat)
deriving Repr, DecidableEq

/-- Ordered insertion. -/
def insertSorted (x : Nat) : List Nat → List Nat
  | [] => [x]
  | y :: ys => if x ≤ y then x :: y :: ys else y :: insertSorted x ys

/-- Ascending sort of the grouped start columns (Python `sorted`). -/
def sortNat (l : List Nat) : List Nat := l.foldr insertSorted []

/-- The width-mismatch decision for the group of borders at column `c`:
skip groups with fewer than 2 borders or a single distinct width; flag
exactly when at least 2 distinct widths each occur at least twice. -/
def widthIssueAt (boxes : List Box) (c : Nat) : Option BoxIssue :=
  let group := boxes.filter fun b => b.col = c
  if group.length < 2 then none
  else
    let widths := group.map Box.width
    let distinct := widths.dedup
    if distinct.length ≤ 1 then none
    else if 2 ≤ (distinct.filter fun w => 2 ≤ widths.count w).length then
      some (BoxIssue.widthMismatch c (group.map fun b => (b.line, b.width)))
    else none

/-- All width-mismatch issues, by ascending start column. -/
def widthIssuesOf (boxes : List Box) : List BoxIssue :=
  (sortNat ((boxes.map Box.col).dedup)).filterMap (widthIssueAt boxes)

/-- Absolute index of the next '|' at or after `k`. -/
def nextBar (s : List Char) (k : Nat) : Option Nat :=
  match List.findIdx? (fun c => c = '|') (s.drop k) with
  | none => none
  | some d => some (k + d)

/-- Non-overlapping matches of bar, content without bars, bar — each as
(start index, content) — with structural fuel. -/
def barSpansAux (s : List Char) : Nat → Nat → List (Nat × List Char)
  | 0, _ => []
  | fuel + 1, k =>
    match nextBar s k with
    | none => []
    | some i =>
      match nextBar s (i + 1) with
      | none => []
      | some j => (i, (s.drop (i + 1)).take (j - (i + 1))) :: barSpansAux s fuel (j + 1)

/-- All label spans of one line. -/
def barSpans (s : List Char) : List (Nat × List Char) := barSpansAux s (s.length + 1) 0

/-- Python `str.lstrip`. -/
def lstripChars (l : List Char) : List Char := l.dropWhile Char.isWhitespace

/-- The label-padding decision for one span: content of length at least 2
that is not sequence-arrow notation must start with a space. -/
def paddingCheckSpan (lineIdx : Nat) (mc : Nat × List Char) : Option BoxIssue :=
  if mc.2 ≠ [] ∧ 2 ≤ mc.2.length then
    if lstripChars mc.2 ≠ [] ∧ (lstripChars mc.2).headD ' ' ∈ ['-', '<', '>'] then none
    else if mc.2.headD ' ' ≠ ' ' then
      some (BoxIssue.missingPadding (lineIdx + 1) (mc.1 + 1))
    else none
  else none

/-- The label-padding scan of `find_boxes`. -/
def paddingIssuesOf (lines : List (List Char)) : List BoxIssue :=
  lines.enum.flatMap fun il => (barSpans il.2).filterMap (paddingCheckSpan il.1)

/-- `find_boxes(lines)` of verify.py: the issue list (width mismatches then
padding issues) and the detected borders. -/
def find_boxes (lines : List (List Char)) : List BoxIssue × List Box :=
  (widthIssuesOf (boxesOf lines) ++ paddingIssuesOf lines, boxesOf lines)

theorem mem_insertSorted (x a : Nat) (l : List Nat) :
    a ∈ insertSorted x l ↔ a = x ∨ a ∈ l := by
  induction l with
  | nil => simp [insertSorted]
  | cons y ys ih =>
    rw [insertSorted]
    by_cases h : x ≤ y
    · rw [if_pos h]
      simp
    · rw [if_neg h]
      simp only [List.mem_cons, ih]
      tauto

theorem mem_sortNat (a : Nat) (l : List Nat) : a ∈ sortNat l ↔ a ∈ l := by
  induction l with
  | nil => simp [sortNat]
  | cons y ys ih =>
    have hstep : sortNat (y :: ys) = insertSorted y (sortNat ys) := rfl
    rw [hstep, mem_insertSorted, ih]
    simp

theorem two_le_length_of_mem_ne {α : Type} {a b : α} {l : List α}
    (ha : a ∈ l) (hb : b ∈ l) (hne : a ≠ b) : 2 ≤ l.length := by
  cases l with
  | nil => simp at ha
  | cons x xs =>
    cases xs with
    | nil =>
      simp at ha hb
      exact absurd (ha.trans hb.symm) hne
    | cons y ys =>
      simp only [List.length_cons]
      omega

theorem exists_ne_of_nodup_two_le {α : Type} {l : List α}
    (hnd : l.Nodup) (hlen : 2 ≤ l.length) : ∃ a ∈ l, ∃ b ∈ l, a ≠ b := by
  cases l with
  | nil => simp at hlen
  | cons x xs =>
    cases xs with
    | nil => simp at hlen
    | cons y ys =>
      refine ⟨x, by simp, y, by simp, ?_⟩
      intro he
      rw [List.nodup_cons] at hnd
      exact hnd.1 (by rw [he]; simp)

/-- The padding scan only ever produces missing-padding issues. -/
theorem paddingCheckSpan_shape (i : Nat) (mc : Nat × List Char) (x : BoxIssue)
    (h : paddingCheckSpan i mc = some x) : ∃ l c, x = BoxIssue.missingPadding l c := by
  unfold paddingCheckSpan at h
  split_ifs at h with h1 h2 h3
  exact ⟨i + 1, mc.1 + 1, (Option.some.inj h).symm⟩

/-- A width-mismatch issue is never contributed by the padding scan. -/
theorem widthMismatch_not_padding (lines : List (List Char)) (c : Nat)
    (e : List (Nat × Nat)) (h : BoxIssue.widthMismatch c e ∈ paddingIssuesOf lines) :
    False := by
  unfold paddingIssuesOf at h
  rw [List.mem_flatMap] at h
  obtain ⟨il, _, h⟩ := h
  rw [List.mem_filterMap] at h
  obtain ⟨mc, _, hmc⟩ := h
  obtain ⟨l, c2, he⟩ := paddingCheckSpan_shape il.1 mc _ hmc
  exact BoxIssue.noConfusion he

/-- Characterises when the group at column `c` is flagged. -/
theorem widthIssueAt_some (boxes : List Box) (c : Nat) (iss : BoxIssue) :
    widthIssueAt boxes c = some iss ↔
      2 ≤ (boxes.filter fun b => b.col = c).length ∧
      1 < ((boxes.filter fun b => b.col = c).map Box.width).dedup.length ∧
      2 ≤ (((boxes.filter fun b => b.col = c).map Box.width).dedup.filter
            fun w => 2 ≤ ((boxes.filter fun b => b.col = c).map Box.width).count w).length ∧
      iss = BoxIssue.widthMismatch c
        ((boxes.filter fun b => b.col = c).map fun b => (b.line, b.width)) := by
  simp only [widthIssueAt]
  split_ifs with h1 h2 h3
  · simp
    intro ha
    exact absurd ha (by omega)
  · simp
    intro _ hb
    exact absurd hb (by omega)
  · simp only [Option.some.injEq]
    constructor
    · intro he
      exact ⟨by omega, by omega, h3, he.symm⟩
    · intro hc
      exact hc.2.2.2.symm
  · simp
    intro _ _ hc
    exact absurd hc h3

/-- An 8-wide border line. -/
def bord8 : List Char := ['+', '-', '-', '-', '-', '-', '-', '+']

/-- A 6-wide border line. -/
def bord6 : List Char := ['+', '-', '-', '-', '-', '+']

/-- Widths 8,8,6,6 at one column. -/
def diagC3A : List (List Char) := [bord8, bord8, bord6, bord6]

/-- Widths 8,8,8,6 at one column. -/
def diagC3B : List (List Char) := [bord8, bord8, bord8, bord6]

/-- Widths 8,8 at one column. -/
def diagC3C : List (List Char) := [bord8, bord8]

/-- C3: a group of 2+ borders at one start column gets a width-mismatch
issue listing every border of the group exactly when at least two distinct
widths each occur at least twice; in particular 8,8,6,6 yields one issue,
while 8,8,8,6 and 8,8 yield none. -/
theorem C3_box_width_grouping :
    (∀ (lines : List (List Char)) (c : Nat),
      2 ≤ ((boxesOf lines).filter fun b => b.col = c).length →
      (BoxIssue.widthMismatch c
          (((boxesOf lines).filter fun b => b.col = c).map fun b => (b.line, b.width))
        ∈ (find_boxes lines).1 ↔
        ∃ w1 w2 : Nat, w1 ≠ w2 ∧
          2 ≤ (((boxesOf lines).filter fun b => b.col = c).map Box.width).count w1 ∧
          2 ≤ (((boxesOf lines).filter fun b => b.col = c).map Box.width).count w2)) ∧
    (find_boxes diagC3A).1 = [BoxIssue.widthMismatch 1 [(1, 8), (2, 8), (3, 6), (4, 6)]] ∧
    (find_boxes diagC3B).1 = [] ∧
    (find_boxes diagC3C).1 = [] := by
  refine ⟨?_, by decide, by decide, by decide⟩
  intro lines c hlen
  constructor
  · intro hmem
    simp only [find_boxes] at hmem
    rcases List.mem_append.mp hmem with hw | hp
    · rw [widthIssuesOf, List.mem_filterMap] at hw
      obtain ⟨c2, _hc2mem, hc2⟩ := hw
      rw [widthIssueAt_some] at hc2
      obtain ⟨_, _, hm2, heq⟩ := hc2
      have hcc : c = c2 := by
        injection heq
      subst hcc
      have hnd : ((((boxesOf lines).filter fun b => b.col = c).map Box.width).dedup.filter
          fun w => 2 ≤ (((boxesOf lines).filter fun b => b.col = c).map Box.width).count w).Nodup :=
        (List.nodup_dedup _).filter _
      obtain ⟨w1, hw1, w2, hw2, hne⟩ := exists_ne_of_nodup_two_le hnd hm2
      rw [List.mem_filter] at hw1 hw2
      refine ⟨w1, w2, hne, ?_, ?_⟩
      · simpa using hw1.2
      · simpa using hw2.2
    · exact (widthMismatch_not_padding lines c _ hp).elim
  · rintro ⟨w1, w2, hne, hc1, hc2⟩
    simp only [find_boxes]
    apply List.mem_append.mpr
    left
    rw [widthIssuesOf, List.mem_filterMap]
    refine ⟨c, ?_, ?_⟩
    · rw [mem_sortNat, List.mem_dedup, List.mem_map]
      have hgne : ((boxesOf lines).filter fun b => b.col = c) ≠ [] := by
        intro h0
        rw [h0] at hlen
        simp at hlen
      obtain ⟨b, hb⟩ := List.exists_mem_of_ne_nil _ hgne
      rw [List.mem_filter] at hb
      exact ⟨b, hb.1, by simpa using hb.2⟩
    · rw [widthIssueAt_some]
      have hw1m : w1 ∈ ((boxesOf lines).filter fun b => b.col = c).map Box.width := by
        by_contra hcm
        rw [List.count_eq_zero.mpr hcm] at hc1
        omega
      have hw2m : w2 ∈ ((boxesOf lines).filter fun b => b.col = c).map Box.width := by
        by_contra hcm
        rw [List.count_eq_zero.mpr hcm] at hc2
        omega
      have hd1 := List.mem_dedup.mpr hw1m
      have hd2 := List.mem_dedup.mpr hw2m
      have hf1 : w1 ∈ (((boxesOf lines).filter fun b => b.col = c).map Box.width).dedup.filter
          fun w => 2 ≤ (((boxesOf lines).filter fun b => b.col = c).map Box.width).count w :=
        List.mem_filter.mpr ⟨hd1, by simpa using hc1⟩
      have hf2 : w2 ∈ (((boxesOf lines).filter fun b => b.col = c).map Box.width).dedup.filter
          fun w => 2 ≤ (((boxesOf lines).filter fun b => b.col = c).map Box.width).count w :=
        List.mem_filter.mpr ⟨hd2, by simpa using hc2⟩
      refine ⟨hlen, ?_, two_le_length_of_mem_ne hf1 hf2 hne, rfl⟩
      have h2d := two_le_length_of_mem_ne hd1 hd2 hne
      omega

/-- C3 witness: the 8,8,6,6 group is flagged. -/
theorem C3_box_width_grouping_witness :
    BoxIssue.widthMismatch 1
        (((boxesOf diagC3A).filter fun b => b.col = 1).map fun b => (b.line, b.width))
      ∈ (find_boxes diagC3A).1 :=
  (C3_box_width_grouping.1 diagC3A 1 (by decide)).mpr
    ⟨8, 6, by decide, by decide, by decide⟩
